import Mathlib

/-
Verification development for the StockFanAI-Bot analysis pipeline
(src/chatbot.py).  Python values flowing through the pipeline are embedded
shallowly: JSON-like values as the inductive `PyJson`, strings as `String`
or `List Char`, machinery that can raise as `Except String`-valued
functions, and the two retry loops as explicit recursions over the
sequence of backend results.  External library calls (the JSON decoder
`json.loads`, the network backend) are abstracted as function parameters
or oracles; everything else is translated directly from the source.
-/

set_option maxRecDepth 4096

/-- Embedding of the Python values produced by `json.loads` and passed
around the pipeline (dicts, lists, strings, numbers, booleans, None). -/
inductive PyJson where
  | null : PyJson
  | bool (b : Bool) : PyJson
  | num (n : Int) : PyJson
  | str (s : String) : PyJson
  | arr (xs : List PyJson) : PyJson
  | obj (fields : List (String × PyJson)) : PyJson

/-- Python's `isinstance(result, dict) and "raw_response" in result`
(chatbot.py line 54): the failure signal checked by `retry_on_json_error`. -/
def isJsonFailure : PyJson → Bool
  | .obj fields => fields.any (fun p => p.1 == "raw_response")
  | _ => false

/-- Python's `result.get(key)` on a dict (None, i.e. `none`, otherwise). -/
def dictGet (j : PyJson) (k : String) : Option PyJson :=
  match j with
  | .obj fields => (fields.find? (fun p => p.1 == k)).map Prod.snd
  | _ => none

/-- `result.get('raw_response', 'N/A')` from the ValueError raised at
chatbot.py lines 65-68. -/
def failureRaw (j : PyJson) : PyJson :=
  (dictGet j "raw_response").getD (.str "N/A")

/-- Outcome of the `retry_on_json_error` wrapper: a returned value, or the
terminal ValueError embedding the last raw response. -/
inductive RetryOutcome where
  | ok (r : PyJson) : RetryOutcome
  | fatal (lastRaw : PyJson) : RetryOutcome

/-- Statistics of one run of the wrapper: how many times the wrapped
function was invoked, the final value of the global `numOfRetries`
counter, and how many `time.sleep(delay_seconds)` calls happened. -/
structure RetryStats where
  calls : Nat
  ctr : Nat
  sleeps : Nat

/-- The `for attempt in range(max_retries)` loop of `retry_on_json_error`
(chatbot.py lines 50-68), with `fuel = max_retries - attempt` making the
recursion structural.  `op i` is the result of the wrapped function on its
`i`-th invocation; `ctr` is the current value of `numOfRetries`, bumped
once per iteration before the call.  When the loop completes (fuel `0`)
the ValueError embedding the last result's raw response is raised; a
sleep happens after a failed attempt only while `attempt < maxR - 1`. -/
def retryGo (op : Nat → PyJson) (maxR : Nat) : Nat → Nat → Nat → RetryOutcome × RetryStats
  | 0, attempt, ctr => (.fatal (failureRaw (op (attempt - 1))), ⟨0, ctr, 0⟩)
  | fuel + 1, attempt, ctr =>
      let res := op attempt
      if isJsonFailure res then
        let s : Nat := if attempt < maxR - 1 then 1 else 0
        let rest := retryGo op maxR fuel (attempt + 1) (ctr + 1)
        (rest.1, ⟨rest.2.calls + 1, rest.2.ctr, rest.2.sleeps + s⟩)
      else
        (.ok res, ⟨1, ctr + 1, 0⟩)

/-- `retry_on_json_error(max_retries=1000, delay_seconds=1)` applied to an
operation, starting from counter value `ctr0` (chatbot.py lines 41-70). -/
def retry_on_json_error (op : Nat → PyJson) (ctr0 : Nat) : RetryOutcome × RetryStats :=
  retryGo op 1000 1000 0 ctr0

/-- Python's `\s`-class / `str.strip()` whitespace, ASCII range
(space, tab, newline, carriage return, vertical tab, form feed). -/
def pyIsSpace (c : Char) : Bool :=
  c == ' ' || c == Char.ofNat 9 || c == Char.ofNat 10 || c == Char.ofNat 13 ||
  c == Char.ofNat 11 || c == Char.ofNat 12

/-- Python's `str.strip()`: remove leading and trailing whitespace. -/
def pyStrip (l : List Char) : List Char :=
  ((l.dropWhile pyIsSpace).reverse.dropWhile pyIsSpace).reverse

/-- Python's substring test `needle in haystack`. -/
def containsSub (needle hay : List Char) : Bool :=
  (List.range (hay.length + 1)).any (fun i => needle.isPrefixOf (hay.drop i))

/-- The rate-limit test at chatbot.py line 265:
`"429" in error_message and "RESOURCE_EXHAUSTED" in error_message`. -/
def isQuotaError (msg : String) : Bool :=
  containsSub "429".data msg.data && containsSub "RESOURCE_EXHAUSTED".data msg.data

/-- The apostrophe character, written via its code point. -/
def aposChar : Char := Char.ofNat 39

/-- Try to match the regex `'retryDelay':\s*'(\d+)s'` at the head of the
character list, returning the captured digits as a number. -/
def matchDelayAt (l : List Char) : Option Nat :=
  let pat : List Char := aposChar :: "retryDelay".data ++ [aposChar, ':']
  if pat.isPrefixOf l then
    let r := (l.drop pat.length).dropWhile pyIsSpace
    match r with
    | q :: r1 =>
      if q = aposChar then
        let ds := r1.takeWhile Char.isDigit
        let r2 := r1.dropWhile Char.isDigit
        if ds.isEmpty then none
        else
          match r2 with
          | c1 :: c2 :: _ =>
            if c1 = 's' ∧ c2 = aposChar then
              some (ds.foldl (fun acc c => acc * 10 + (c.toNat - 48)) 0)
            else none
          | _ => none
      else none
    | [] => none
  else none

/-- `re.search(r"'retryDelay':\s*'(\d+)s'", error_message)` (chatbot.py
line 267): leftmost match of the delay pattern. -/
def findRetryDelay : List Char → Option Nat
  | [] => none
  | c :: rest =>
    match matchDelayAt (c :: rest) with
    | some n => some n
    | none => findRetryDelay rest

/-- The delay chosen at chatbot.py lines 266-269: the advertised
`retryDelay` when the message carries one, otherwise 60. -/
def delayOf (msg : String) : Nat :=
  (findRetryDelay msg.data).getD 60

/-- One backend response in a `generate_response` call: either the model
answers with text, or the call raises with the given error message. -/
inductive GwStep where
  | ok (t : String) : GwStep
  | err (msg : String) : GwStep

/-- Outcome of `generate_response`: the returned (stripped) text, or a
re-raised error; `sleeps` lists the `time.sleep(delay)` durations the call
performed before finishing. -/
inductive GwOutcome where
  | success (text : String) (sleeps : List Nat) : GwOutcome
  | raised (msg : String) (sleeps : List Nat) : GwOutcome

/-- The `while True` retry loop of `generate_response` (chatbot.py lines
234-276) over a trace of backend results.  A successful call returns
`response.text.strip()`; a quota-exhaustion error (429/RESOURCE_EXHAUSTED)
sleeps for the advertised delay (default 60) and re-issues the request;
any other error is re-raised immediately.  `none` means the supplied trace
ended before the loop did. -/
def generate_response : List GwStep → Option GwOutcome
  | [] => none
  | .ok t :: _ => some (.success (String.mk (pyStrip t.data)) [])
  | .err m :: rest =>
    if isQuotaError m then
      match generate_response rest with
      | some (.success t ds) => some (.success t (delayOf m :: ds))
      | some (.raised m2 ds) => some (.raised m2 (delayOf m :: ds))
      | none => none
    else
      some (.raised m [])

/-- The characters of the opening fence tag matched case-insensitively by
`re.sub(r"^```(?:json)?\s*", "", text, flags=re.IGNORECASE)`. -/
def fenceJson : List Char := "```json".data

/-- The characters of a bare code fence. -/
def fencePlain : List Char := "```".data

/-- The leading-fence removal at chatbot.py line 334:
`re.sub(r"^```(?:json)?\s*", "", response_text, flags=re.IGNORECASE)`.
The regex engine greedily takes the optional `json` tag (case-insensitive)
when present, then swallows following whitespace. -/
def stripLeadingFence (l : List Char) : List Char :=
  if (l.take 7).map Char.toLower = fenceJson then (l.drop 7).dropWhile pyIsSpace
  else if fencePlain.isPrefixOf l then (l.drop 3).dropWhile pyIsSpace
  else l

/-- The trailing-fence removal at chatbot.py line 335:
`re.sub(r"\s*```$", "", response_text)`.  The input it receives has been
`strip()`ped, so the only `$` position is the end of the string: when the
text ends in ```` ``` ````, that fence and the whitespace before it are
removed. -/
def stripTrailingFence (l : List Char) : List Char :=
  if fencePlain.isPrefixOf l.reverse then
    ((l.reverse.drop 3).dropWhile pyIsSpace).reverse
  else l

/-- The cleanup performed on the model text before JSON extraction
(chatbot.py lines 330-335): `strip()`, then leading-fence removal, then
trailing-fence removal. -/
def cleanupText (l : List Char) : List Char :=
  stripTrailingFence (stripLeadingFence (pyStrip l))

/-- `re.search(r"(\{.*\})", response_text, re.DOTALL)` (chatbot.py line
338): with a greedy dot-matches-all `.*`, the leftmost match runs from the
first opening brace to the last closing brace of the whole text, provided
some closing brace follows the first opening brace. -/
def extractBraced (l : List Char) : Option (List Char) :=
  let l1 := l.dropWhile (fun c => c != '{')
  let l2 := (l1.reverse.dropWhile (fun c => c != '}')).reverse
  if l2.isEmpty then none else some l2

/-- The typographic double quote characters and the quote substitutions of
chatbot.py line 346: `.replace("“", "\"").replace("”", "\"").replace("'", "\"")`,
written as one character map (the three replacements touch disjoint
characters). -/
def deSmart (l : List Char) : List Char :=
  l.map (fun c =>
    if c = Char.ofNat 8220 ∨ c = Char.ofNat 8221 ∨ c = aposChar then Char.ofNat 34 else c)

/-- `re.sub(r",\s*(\]|\})", r"\1", safe)` (chatbot.py line 348): every
comma followed by optional whitespace and a closing bracket is replaced by
the bracket; scanning resumes after each replacement. -/
def stripCommas : List Char → List Char
  | [] => []
  | c :: rest =>
    if c = ',' then
      match h : rest.dropWhile pyIsSpace with
      | b :: r2 =>
        if b = ']' ∨ b = '}' then b :: stripCommas r2 else c :: stripCommas rest
      | [] => c :: rest
    else c :: stripCommas rest
termination_by l => l.length
decreasing_by
  · simp only [List.length_cons]
    have h1 : ∀ l : List Char, (l.dropWhile pyIsSpace).length ≤ l.length := by
      intro l
      induction l with
      | nil => exact Nat.le_refl 0
      | cons a as ih =>
        rw [List.dropWhile_cons]
        by_cases hp : pyIsSpace a = true
        · rw [if_pos hp]; exact Nat.le_trans ih (Nat.le_succ _)
        · rw [if_neg hp]
    have h2 := h1 rest
    rw [h] at h2
    simp at h2
    omega
  · simp
  · simp

/-- The last-ditch normalization pass of chatbot.py lines 346-348. -/
def normalizeJson (l : List Char) : List Char :=
  stripCommas (deSmart l)

/-- The malformed-output marker `{"raw_response": response_text}`
(chatbot.py lines 353 and 357). -/
def jsonMarker (t : List Char) : PyJson :=
  .obj [("raw_response", .str (String.mk t))]

/-- The JSON-extraction logic of `generate_critique_feedback` (chatbot.py
lines 330-357), parameterized by the JSON decoder `loads` (`json.loads`,
abstracted: `none` models a parse exception).  Cleans the response text,
finds the braced candidate region, tries a strict parse, retries once
after normalization, and falls back to the malformed-output marker. -/
def parseCritique (loads : List Char → Option PyJson) (raw : List Char) : PyJson :=
  match extractBraced (cleanupText raw) with
  | none => jsonMarker (cleanupText raw)
  | some cand =>
    match loads cand with
    | some j => j
    | none =>
      match loads (normalizeJson cand) with
      | some j => j
      | none => jsonMarker (cleanupText raw)

/-- The `Topic` enumeration (chatbot.py lines 101-112), in declaration
order. -/
inductive Topic where
  | HISTORY
  | PRODUCTS_INDUSTRY_MARKETSIZE
  | REVENUE_BREAKDOWN
  | CUSTOMERS
  | COMPETITIVE_LANDSCAPE
  | FINANCIAL_PERFORMANCE
  | STOCK_DRIVERS
  | INVESTMENT_RISKS
deriving DecidableEq

/-- The display label of each topic. -/
def Topic.label : Topic → String
  | .HISTORY => "History"
  | .PRODUCTS_INDUSTRY_MARKETSIZE => "Products, Industry & Market Size"
  | .REVENUE_BREAKDOWN => "Revenue Breakdown"
  | .CUSTOMERS => "Customers"
  | .COMPETITIVE_LANDSCAPE => "Competitive Landscape"
  | .FINANCIAL_PERFORMANCE => "Financial Performance"
  | .STOCK_DRIVERS => "Stock Drivers"
  | .INVESTMENT_RISKS => "Investment Risks"

/-- The ordering code of each topic. -/
def Topic.code : Topic → Nat
  | .HISTORY => 1
  | .PRODUCTS_INDUSTRY_MARKETSIZE => 2
  | .REVENUE_BREAKDOWN => 3
  | .CUSTOMERS => 4
  | .COMPETITIVE_LANDSCAPE => 5
  | .FINANCIAL_PERFORMANCE => 6
  | .STOCK_DRIVERS => 7
  | .INVESTMENT_RISKS => 8

/-- `list(Topic)`: the topics in enumeration (declaration) order. -/
def topics : List Topic :=
  [.HISTORY, .PRODUCTS_INDUSTRY_MARKETSIZE, .REVENUE_BREAKDOWN, .CUSTOMERS,
   .COMPETITIVE_LANDSCAPE, .FINANCIAL_PERFORMANCE, .STOCK_DRIVERS, .INVESTMENT_RISKS]

/-- Python string comparison: lexicographic on code points. -/
def lexLe : List Char → List Char → Bool
  | [], _ => true
  | _ :: _, [] => false
  | a :: as, b :: bs => if a = b then lexLe as bs else decide (a < b)

/-- `sorted(ordered_futures)` (chatbot.py line 480): the `(label, future)`
pairs sorted by label, i.e. the topics in sorted-label order; results are
collected from the futures in this order. -/
def collectOrder : List Topic :=
  List.insertionSort (fun a b => lexLe a.label.data b.label.data = true) topics

/-- The Working Set `sorted_results`: a Python dict from topic label to
the current draft text, embedded as an insertion-ordered association
list. -/
abbrev WS := List (String × String)

/-- Python `d.get(k)` on the Working Set. -/
def lookupWS (ws : WS) (k : String) : Option String :=
  (ws.find? (fun p => p.1 == k)).map Prod.snd

/-- Python `d[k] = v` on the Working Set: overwrite the existing entry in
place, or append a new one. -/
def setWS : WS → String → String → WS
  | [], k, v => [(k, v)]
  | (k1, v1) :: rest, k, v =>
    if k1 = k then (k, v) :: rest else (k1, v1) :: setWS rest k v

/-- Python truthiness of `original_draft` at chatbot.py line 504: `None`
and the empty string are falsy. -/
def truthyDraft : Option String → Bool
  | some s => !s.isEmpty
  | none => false

/-- `isinstance(corrections_array, list)` (chatbot.py line 504). -/
def isListPayload : PyJson → Bool
  | .arr _ => true
  | _ => false

/-- The external behavior one subject's run depends on: the draft task
result per topic, the critique-feedback dict per cycle (already through
`retry_on_json_error`, so never the failure marker it retries on), and the
revision (edit) result per cycle and topic label.  `Except.error`
models the Python call raising. -/
structure SubjectOracle where
  draft : Topic → Except String String
  critique : Nat → Except String (List (String × PyJson))
  edit : Nat → String → Except String String

/-- Collecting the draft futures in sorted-label order (chatbot.py lines
480-481): each result is written into the Working Set; the first future
whose task raised re-raises at its `future.result()` call. -/
def draftsGo (draft : Topic → Except String String) : List Topic → WS → Except String WS
  | [], ws => .ok ws
  | t :: rest, ws =>
    match draft t with
    | .error e => .error e
    | .ok s => draftsGo draft rest (setWS ws t.label s)

/-- The whole `DRAFTING` stage (chatbot.py lines 474-481). -/
def runDrafts (draft : Topic → Except String String) : Except String WS :=
  draftsGo draft collectOrder []

/-- The topics submitted for revision in one cycle (chatbot.py lines
501-510): an edit job is created exactly for the critique entries whose
topic has a truthy entry in the Working Set and whose correction payload
is a list; the rest are skipped. -/
def editJobs (ws : WS) (cf : List (String × PyJson)) : List String :=
  cf.filterMap (fun p =>
    if truthyDraft (lookupWS ws p.1) && isListPayload p.2 then some p.1 else none)

/-- Collecting the edit futures (chatbot.py lines 520-522): each revised
draft overwrites its topic's Working Set entry; a raising edit task
re-raises at its `future.result()` call. -/
def applyEdits (o : SubjectOracle) (r : Nat) : List String → WS → Except String WS
  | [], ws => .ok ws
  | name :: rest, ws =>
    match o.edit r name with
    | .error e => .error e
    | .ok txt => applyEdits o r rest (setWS ws name txt)

/-- One critique→revise cycle (chatbot.py lines 492-522). -/
def runRound (o : SubjectOracle) (r : Nat) (ws : WS) : Except String WS :=
  match o.critique r with
  | .error e => .error e
  | .ok cf => applyEdits o r (editJobs ws cf) ws

/-- `amount_of_cycles` (chatbot.py line 469). -/
def amount_of_cycles : Nat := 3

/-- The `while (count < amount_of_cycles)` loop (chatbot.py lines
483-527), with fuel `amount_of_cycles - count`; also counts how many
critique calls were made before the loop finished or an exception
escaped. -/
def cyclesGo (o : SubjectOracle) : Nat → Nat → WS → (Except String WS) × Nat
  | 0, _, ws => (.ok ws, 0)
  | n + 1, count, ws =>
    match runRound o count ws with
    | .error e => (.error e, 1)
    | .ok ws2 =>
      let rest := cyclesGo o n (count + 1) ws2
      (rest.1, rest.2 + 1)

/-- The slot printed for one topic in the final report (chatbot.py lines
534-550): the analysis text when the Working Set has a truthy entry for
the topic's label (it is then ANSI-formatted and printed), otherwise
`none`, standing for the fallback message
"Analysis for this topic could not be found.". -/
def reportSlot (ws : WS) (t : Topic) : Option String :=
  match lookupWS ws t.label with
  | some s => if s.isEmpty then none else some s
  | none => none

/-- The printed report: one slot per topic, iterated in the fixed `Topic`
enumeration order (chatbot.py line 534 `for topic in Topic:`). -/
def printSlots (ws : WS) : List (String × Option String) :=
  topics.map (fun t => (t.label, reportSlot ws t))

/-- The observable result of one subject's run inside the
`try:`/`except:` of `analyze_company`: the printed report (absent when
the run aborted), the error caught by the run-level handler (if any), the
number of critique calls made, and the final Working Set. -/
structure RunResult where
  report : Option (List (String × Option String))
  error : Option String
  critiqueCalls : Nat
  finalWS : Option WS

/-- One subject's run: the body of the `try:` block of `analyze_company`
(chatbot.py lines 466-563).  Drafting, then the bounded critique→revise
loop, then the report; any exception aborts the run and is caught by the
run-level handler (lines 566-567). -/
def runSubject (o : SubjectOracle) : RunResult :=
  match runDrafts o.draft with
  | .error e => ⟨none, some e, 0, none⟩
  | .ok ws0 =>
    match cyclesGo o amount_of_cycles 0 ws0 with
    | (.error e, c) => ⟨none, some e, c, none⟩
    | (.ok wsF, c) => ⟨some (printSlots wsF), none, c, some wsF⟩

/-- What the REPL loop of `analyze_company` emits for each line of input. -/
inductive ReplEvent where
  | goodbye : ReplEvent
  | errorLine (msg : String) : ReplEvent
  | reportFor (subject : String) (slots : List (String × Option String)) : ReplEvent

/-- Python `str.lower()` on the input line (ASCII), used by the exit
check. -/
def strLower (s : String) : String :=
  String.mk (s.data.map Char.toLower)

/-- The REPL loop of `analyze_company` (chatbot.py lines 457-567) over a
list of input lines: `exit`/`quit` (case-insensitive) ends the loop; any
other line runs one subject, whose caught exception is reported
(`Error during company analysis: ...`) before the loop continues. -/
def analyze_company (oracles : String → SubjectOracle) : List String → List ReplEvent
  | [] => []
  | inp :: rest =>
    if strLower inp == "exit" || strLower inp == "quit" then [.goodbye]
    else
      let r := runSubject (oracles inp)
      (match r.error with
       | some e => ReplEvent.errorLine e
       | none => ReplEvent.reportFor inp (r.report.getD [])) :: analyze_company oracles rest

/-- An operation whose result is always the JSON-failure marker. -/
def opFail : Nat → PyJson := fun _ => .obj [("raw_response", .str "still broken")]

/-- An operation whose result is immediately a valid (non-marker) value. -/
def opOk : Nat → PyJson := fun _ => .str "parsed fine"

/-- A quota-exhaustion message advertising a 7-second retry delay
(built character-wise because of the quoting in the `retryDelay` pattern). -/
def qMsgDelay : String :=
  String.mk ("429 RESOURCE_EXHAUSTED ".data ++
    aposChar :: "retryDelay".data ++ [aposChar, ':', ' '] ++
    aposChar :: '7' :: 's' :: [aposChar])

/-- A quota-exhaustion message advertising no retry delay. -/
def qMsgPlain : String := "429 quota RESOURCE_EXHAUSTED"

/-- Drafts that all succeed. -/
def draftsAllOk : Topic → Except String String := fun _ => .ok "draft text"

/-- An oracle whose critique always returns a non-empty correction list. -/
def oAlways : SubjectOracle :=
  ⟨draftsAllOk,
   fun _ => .ok [("History", .arr [PyJson.obj
     [("original", .str "o"), ("corrected", .str "c"), ("reasoning", .str "why")]])],
   fun _ _ => .ok "revised"⟩

/-- An oracle whose critique always reports no corrections at all. -/
def oEmptyCrit : SubjectOracle :=
  ⟨draftsAllOk, fun _ => .ok [], fun _ _ => .ok "revised"⟩

/-- An oracle where exactly one draft task (History) raises. -/
def oDraftBoom : SubjectOracle :=
  ⟨fun t => if t = .HISTORY then .error "boom" else .ok "draft text",
   fun _ => .ok [], fun _ _ => .ok "revised"⟩

/-- An oracle where every draft task raises a non-quota backend error. -/
def oNetDown : SubjectOracle :=
  ⟨fun _ => .error "network down", fun _ => .ok [], fun _ _ => .ok "x"⟩

/-- A Working Set with two truthy entries. -/
def wsC6 : WS := [("History", "h-draft"), ("Customers", "c-draft")]

/-- A critique dict with a non-list payload, a topic absent from the
Working Set, and one well-shaped entry. -/
def cfC6 : List (String × PyJson) :=
  [("History", .str "notalist"), ("Ghost", .arr []), ("Customers", .arr [])]

/-- The oracle returning `cfC6` as critique feedback. -/
def oC6 : SubjectOracle :=
  ⟨draftsAllOk, fun _ => .ok cfC6, fun _ _ => .ok "c-rev"⟩

/-- The Working Set after one round of `oC6`. -/
def wsC6out : WS := [("History", "h-draft"), ("Customers", "c-rev")]

/-- The final Working Set of a full successful run of `oEmptyCrit`
(drafts collected in sorted-label order). -/
def ws9 : WS :=
  [("Competitive Landscape", "draft text"), ("Customers", "draft text"),
   ("Financial Performance", "draft text"), ("History", "draft text"),
   ("Investment Risks", "draft text"), ("Products, Industry & Market Size", "draft text"),
   ("Revenue Breakdown", "draft text"), ("Stock Drivers", "draft text")]

/-- The printed report of that run, in `Topic` enumeration order. -/
def rep9 : List (String × Option String) :=
  [("History", some "draft text"), ("Products, Industry & Market Size", some "draft text"),
   ("Revenue Breakdown", some "draft text"), ("Customers", some "draft text"),
   ("Competitive Landscape", some "draft text"), ("Financial Performance", some "draft text"),
   ("Stock Drivers", some "draft text"), ("Investment Risks", some "draft text")]

/-- A syntactically valid braced payload for the parser theorems. -/
def xC8 : List Char := "{ok: 1}".data

/-- The structured value the abstract decoder returns for `xC8`. -/
def jC8 : PyJson := .obj [("ok", .num 1)]

/-- An abstract strict decoder accepting exactly `xC8`. -/
def loadsC8 : List Char → Option PyJson :=
  fun l => if l = xC8 then some jC8 else none

theorem aux_retryGo_all_fail (op : Nat → PyJson) (maxR : Nat) :
    ∀ (fuel attempt ctr : Nat), attempt + fuel = maxR →
    (∀ i, attempt ≤ i → i < maxR → isJsonFailure (op i) = true) →
    retryGo op maxR fuel attempt ctr =
      (.fatal (failureRaw (op (maxR - 1))), ⟨fuel, ctr + fuel, fuel - 1⟩) := by
  intro fuel
  induction fuel with
  | zero =>
    intro attempt ctr h _
    have ha : attempt = maxR := by omega
    subst ha
    simp [retryGo]
  | succ fuel ih =>
    intro attempt ctr h hf
    have hfail : isJsonFailure (op attempt) = true :=
      hf attempt (Nat.le_refl _) (by omega)
    have hrec := ih (attempt + 1) (ctr + 1) (by omega)
      (fun i h1 h2 => hf i (by omega) h2)
    simp only [retryGo, hfail, if_true, hrec]
    rcases Nat.eq_zero_or_pos fuel with hz | hp
    · subst hz
      have : ¬(attempt < maxR - 1) := by omega
      simp [this]
    · have : attempt < maxR - 1 := by omega
      simp [this]
      constructor
      · omega
      · omega

theorem aux_retryGo_first_ok (op : Nat → PyJson) (maxR : Nat) :
    ∀ (fuel attempt ctr k : Nat), attempt + fuel = maxR → attempt ≤ k → k < maxR →
    (∀ i, attempt ≤ i → i < k → isJsonFailure (op i) = true) →
    isJsonFailure (op k) = false →
    retryGo op maxR fuel attempt ctr =
      (.ok (op k), ⟨k + 1 - attempt, ctr + (k + 1 - attempt), k - attempt⟩) := by
  intro fuel
  induction fuel with
  | zero =>
    intro attempt ctr k h h1 h2 _ _
    omega
  | succ fuel ih =>
    intro attempt ctr k h h1 h2 hf hk
    by_cases he : k = attempt
    · subst he
      simp only [retryGo, hk, if_false, Bool.false_eq_true]
      simp
    · have hlt : attempt < k := by omega
      have hfail : isJsonFailure (op attempt) = true :=
        hf attempt (Nat.le_refl _) hlt
      have hrec := ih (attempt + 1) (ctr + 1) k (by omega) (by omega) h2
        (fun i hi1 hi2 => hf i (by omega) hi2) hk
      have hs : attempt < maxR - 1 := by omega
      simp only [retryGo, hfail, if_true, hrec]
      rw [if_pos hs]
      have e1 : k + 1 - (attempt + 1) + 1 = k + 1 - attempt := by omega
      have e2 : ctr + 1 + (k + 1 - (attempt + 1)) = ctr + (k + 1 - attempt) := by omega
      have e3 : k - (attempt + 1) + 1 = k - attempt := by omega
      rw [e1, e2, e3]

/-- C2: an operation that always returns the malformed-output marker is
invoked exactly 1000 times by `retry_on_json_error`, the global counter
grows by exactly 1000, and the terminal error embedding the last raw
response is raised (with a delay after every attempt but the last); an
operation whose `k`-th result is the first non-marker one makes the
wrapper return that result immediately, with `k + 1` invocations and no
delay after the successful attempt. -/
theorem C2_retry_ceiling (op : Nat → PyJson) (ctr0 : Nat) :
    ((∀ i, i < 1000 → isJsonFailure (op i) = true) →
      retry_on_json_error op ctr0 =
        (.fatal (failureRaw (op 999)), ⟨1000, ctr0 + 1000, 999⟩))
    ∧ (∀ k, k < 1000 → (∀ i, i < k → isJsonFailure (op i) = true) →
        isJsonFailure (op k) = false →
        retry_on_json_error op ctr0 = (.ok (op k), ⟨k + 1, ctr0 + (k + 1), k⟩)) := by
  constructor
  · intro hf
    have h := aux_retryGo_all_fail op 1000 1000 0 ctr0 (by omega)
      (fun i _ h2 => hf i h2)
    simpa [retry_on_json_error] using h
  · intro k hk hf hok
    have h := aux_retryGo_first_ok op 1000 1000 0 ctr0 k (by omega) (by omega) hk
      (fun i _ h2 => hf i h2) hok
    simpa [retry_on_json_error] using h

/-- C2 witness: the claim theorem applied to the always-failing operation
`opFail` and to the immediately-valid operation `opOk`. -/
theorem C2_witness :
    retry_on_json_error opFail 0 = (.fatal (failureRaw (opFail 999)), ⟨1000, 1000, 999⟩)
    ∧ retry_on_json_error opOk 0 = (.ok (opOk 0), ⟨1, 1, 0⟩) := by
  constructor
  · have h := (C2_retry_ceiling opFail 0).1 (fun i _ => rfl)
    simpa using h
  · have h := (C2_retry_ceiling opOk 0).2 0 (by omega) (fun i hi => absurd hi (by omega)) rfl
    simpa using h

theorem aux_retryGo_calls_pos (op : Nat → PyJson) (maxR fuel attempt ctr : Nat)
    (h : 1 ≤ fuel) : 1 ≤ (retryGo op maxR fuel attempt ctr).2.calls := by
  rcases fuel with _ | fuel
  · omega
  · by_cases hf : isJsonFailure (op attempt) = true
    · simp [retryGo, hf]
    · have hf2 : isJsonFailure (op attempt) = false := by
        cases hq : isJsonFailure (op attempt)
        · rfl
        · exact absurd hq hf
      simp [retryGo, hf2]

theorem aux_retryGo_calls_two (op : Nat → PyJson) (maxR fuel attempt ctr : Nat)
    (h : 2 ≤ fuel) (hf : isJsonFailure (op attempt) = true) :
    2 ≤ (retryGo op maxR fuel attempt ctr).2.calls := by
  rcases fuel with _ | fuel
  · omega
  · simp only [retryGo, hf, if_true]
    have := aux_retryGo_calls_pos op maxR fuel (attempt + 1) (ctr + 1) (by omega)
    omega

/-- C10: the wrapper's failure test holds exactly for dict values carrying
the key `raw_response`; every non-dict result and every dict without that
key is accepted on the very first attempt, while any result that is a dict
with that key — even a successfully parsed payload — is treated as
malformed, so the operation is invoked again (at least twice in total). -/
theorem C10_failure_signal (op : Nat → PyJson) (ctr0 : Nat) :
    (∀ s, isJsonFailure (.str s) = false)
    ∧ (∀ xs, isJsonFailure (.arr xs) = false)
    ∧ (∀ n, isJsonFailure (.num n) = false)
    ∧ (∀ b, isJsonFailure (.bool b) = false)
    ∧ isJsonFailure .null = false
    ∧ (∀ fields, isJsonFailure (.obj fields) = true ↔ "raw_response" ∈ fields.map Prod.fst)
    ∧ (isJsonFailure (op 0) = false →
        retry_on_json_error op ctr0 = (.ok (op 0), ⟨1, ctr0 + 1, 0⟩))
    ∧ (isJsonFailure (op 0) = true → 2 ≤ (retry_on_json_error op ctr0).2.calls) := by
  refine ⟨fun _ => rfl, fun _ => rfl, fun _ => rfl, fun _ => rfl, rfl, ?_, ?_, ?_⟩
  · intro fields
    simp [isJsonFailure, List.any_eq_true, List.mem_map, beq_iff_eq]
  · intro h0
    have h := aux_retryGo_first_ok op 1000 1000 0 ctr0 0 (by omega) (by omega) (by omega)
      (fun i hi1 hi2 => absurd hi2 (by omega)) h0
    simpa [retry_on_json_error] using h
  · intro h0
    show 2 ≤ (retryGo op 1000 1000 0 ctr0).2.calls
    exact aux_retryGo_calls_two op 1000 1000 0 ctr0 (by omega) h0

/-- C10 witness: the claim theorem applied to an operation returning a
plain string (accepted at once) and to one returning a dict that contains
a `raw_response` key (retried). -/
theorem C10_witness :
    retry_on_json_error (fun _ => PyJson.str "fine") 0 = (.ok (.str "fine"), ⟨1, 1, 0⟩)
    ∧ 2 ≤ (retry_on_json_error (fun _ => PyJson.obj [("raw_response", PyJson.null)]) 0).2.calls := by
  constructor
  · have h := (C10_failure_signal (fun _ => PyJson.str "fine") 0).2.2.2.2.2.2.1 rfl
    simpa using h
  · exact (C10_failure_signal (fun _ => PyJson.obj [("raw_response", PyJson.null)]) 0).2.2.2.2.2.2.2 rfl

/-- C1 counterexample: a backend that signals quota exhaustion four times
in a row (more than the claimed bound of 3) and then succeeds.  The
gateway does not raise any "retries exceeded" error after the third
attempt: it sleeps 60 (the default, none advertised) four times and
returns the successful text. -/
theorem C1_counterexample :
    generate_response
      [.err "429 quota RESOURCE_EXHAUSTED", .err "429 quota RESOURCE_EXHAUSTED",
       .err "429 quota RESOURCE_EXHAUSTED", .err "429 quota RESOURCE_EXHAUSTED",
       .ok "done"]
      = some (.success "done" [60, 60, 60, 60]) := by
  rfl

/-- C1 (amended): on quota-exhaustion signals the gateway blocks for the
advertised retry-after duration (default 60) and re-issues the request
without any bound on the number of attempts — after any number of
consecutive quota errors followed by a success, it returns the stripped
response text, having slept the advertised delay once per quota error;
no "retries exceeded" error exists. -/
theorem C1_unbounded_quota_retry (msgs : List String) (t : String)
    (h : ∀ m ∈ msgs, isQuotaError m = true) :
    generate_response (msgs.map GwStep.err ++ [GwStep.ok t])
      = some (.success (String.mk (pyStrip t.data)) (msgs.map delayOf)) := by
  induction msgs with
  | nil => rfl
  | cons m ms ih =>
    have hm : isQuotaError m = true := h m (List.mem_cons_self m ms)
    have hrest := ih (fun x hx => h x (List.mem_cons_of_mem m hx))
    simp only [List.map_cons, List.cons_append, generate_response, hm, if_true,
      List.append_eq, hrest]

/-- C1 witness: the amended theorem applied to a trace with one advertised
7-second delay and one message with no advertised delay (60 used). -/
theorem C1_witness :
    generate_response ([qMsgDelay, qMsgPlain].map GwStep.err ++ [GwStep.ok "final text"])
      = some (.success (String.mk (pyStrip "final text".data)) ([qMsgDelay, qMsgPlain].map delayOf))
    ∧ [qMsgDelay, qMsgPlain].map delayOf = [7, 60] := by
  constructor
  · exact C1_unbounded_quota_retry [qMsgDelay, qMsgPlain] "final text" (by decide)
  · decide

/-- C4: for every raw model response and every strict decoder behavior the
parser returns a value (it never raises): after stripping whitespace and
code fences, if no brace-delimited candidate region exists the result is
the malformed-output marker carrying the full cleaned response text; if
the strict parse of the candidate succeeds its value is returned; if it
fails, exactly one normalization pass is applied and the strict parse
retried once, returning its value on success and the malformed-output
marker on persistent failure. -/
theorem C4_parser_never_raises (loads : List Char → Option PyJson) (raw : List Char) :
    (extractBraced (cleanupText raw) = none →
      parseCritique loads raw = jsonMarker (cleanupText raw))
    ∧ (∀ cand j, extractBraced (cleanupText raw) = some cand → loads cand = some j →
        parseCritique loads raw = j)
    ∧ (∀ cand j, extractBraced (cleanupText raw) = some cand → loads cand = none →
        loads (normalizeJson cand) = some j → parseCritique loads raw = j)
    ∧ (∀ cand, extractBraced (cleanupText raw) = some cand → loads cand = none →
        loads (normalizeJson cand) = none →
        parseCritique loads raw = jsonMarker (cleanupText raw)) := by
  refine ⟨?_, ?_, ?_, ?_⟩
  · intro h
    simp [parseCritique, h]
  · intro cand j h1 h2
    simp [parseCritique, h1, h2]
  · intro cand j h1 h2 h3
    simp [parseCritique, h1, h2, h3]
  · intro cand h1 h2 h3
    simp [parseCritique, h1, h2, h3]

/-- C4 witness: the claim theorem applied to a decoder that always fails
and a response with no braces: the marker carrying the cleaned text is
produced, no exception. -/
theorem C4_witness :
    parseCritique (fun _ => none) "no braces at all".data
      = jsonMarker (cleanupText "no braces at all".data) :=
  (C4_parser_never_raises (fun _ => none) "no braces at all".data).1 (by decide)

theorem aux_dropWhile_append_all (p : Char → Bool) (w l : List Char)
    (h : ∀ c ∈ w, p c = true) : (w ++ l).dropWhile p = l.dropWhile p := by
  induction w with
  | nil => rfl
  | cons a as ih =>
    have ha : p a = true := h a (List.mem_cons_self a as)
    rw [List.cons_append, List.dropWhile_cons, if_pos ha]
    exact ih (fun c hc => h c (List.mem_cons_of_mem a hc))

theorem aux_dropWhile_head_false (p : Char → Bool) (l : List Char) (c : Char)
    (h1 : l.head? = some c) (h2 : p c = false) : l.dropWhile p = l := by
  cases l with
  | nil => simp at h1
  | cons a as =>
    have ha : a = c := by simpa using h1
    subst ha
    rw [List.dropWhile_cons, if_neg (by simp [h2])]

theorem aux_head?_append_left (s w : List Char) (a : Char) (h : s.head? = some a) :
    (s ++ w).head? = some a := by
  cases s with
  | nil => simp at h
  | cons x xs => simpa using h

theorem aux_pyStrip_sandwich (w1 w2 s : List Char)
    (hw1 : ∀ c ∈ w1, pyIsSpace c = true) (hw2 : ∀ c ∈ w2, pyIsSpace c = true)
    (a b : Char) (ha : s.head? = some a) (hpa : pyIsSpace a = false)
    (hb : s.getLast? = some b) (hpb : pyIsSpace b = false) :
    pyStrip (w1 ++ (s ++ w2)) = s := by
  unfold pyStrip
  rw [aux_dropWhile_append_all pyIsSpace w1 (s ++ w2) hw1]
  rw [aux_dropWhile_head_false pyIsSpace (s ++ w2) a (aux_head?_append_left s w2 a ha) hpa]
  rw [List.reverse_append]
  rw [aux_dropWhile_append_all pyIsSpace w2.reverse s.reverse
    (fun c hc => hw2 c (List.mem_reverse.mp hc))]
  rw [aux_dropWhile_head_false pyIsSpace s.reverse b (by rw [List.head?_reverse]; exact hb) hpb]
  exact List.reverse_reverse s

theorem aux_lower_fenceJson : fenceJson.map Char.toLower = fenceJson := by decide

theorem aux_isPrefixOf_append_self (l r : List Char) : l.isPrefixOf (l ++ r) = true := by
  induction l with
  | nil => simp [List.isPrefixOf]
  | cons a as ih => simp [List.isPrefixOf, ih]

theorem aux_stripLeadingFence_json (rest : List Char) :
    stripLeadingFence (fenceJson ++ rest) = rest.dropWhile pyIsSpace := by
  unfold stripLeadingFence
  rw [show (7 : Nat) = fenceJson.length from rfl]
  rw [List.take_left, List.drop_left, aux_lower_fenceJson]
  rw [if_pos rfl]

theorem aux_toLower_ws_ne_j (c : Char) (h : pyIsSpace c = true) : Char.toLower c ≠ 'j' := by
  have hd : c = ' ' ∨ c = Char.ofNat 9 ∨ c = Char.ofNat 10 ∨ c = Char.ofNat 13 ∨
      c = Char.ofNat 11 ∨ c = Char.ofNat 12 := by
    simpa [pyIsSpace, beq_iff_eq, or_assoc] using h
  rcases hd with h1 | h1 | h1 | h1 | h1 | h1 <;> subst h1 <;> decide

theorem aux_fenceJson_cons :
    fenceJson = Char.ofNat 96 :: Char.ofNat 96 :: Char.ofNat 96 :: 'j' :: 's' :: 'o' :: 'n' :: [] := by
  decide

theorem aux_fencePlain_cons :
    fencePlain = Char.ofNat 96 :: Char.ofNat 96 :: Char.ofNat 96 :: [] := by
  decide

theorem aux_stripLeadingFence_plain (rest : List Char) (c : Char)
    (hh : rest.head? = some c) (hc : Char.toLower c ≠ 'j') :
    stripLeadingFence (fencePlain ++ rest) = rest.dropWhile pyIsSpace := by
  cases rest with
  | nil => simp at hh
  | cons x xs =>
    have hx : x = c := by simpa using hh
    subst hx
    have hlow : Char.toLower (Char.ofNat 96) = Char.ofNat 96 := by decide
    have hcond : ¬(((fencePlain ++ x :: xs).take 7).map Char.toLower = fenceJson) := by
      intro he
      rw [aux_fencePlain_cons, aux_fenceJson_cons] at he
      simp only [List.cons_append, List.nil_append, List.take_succ_cons,
        List.map_cons, hlow, List.cons.injEq] at he
      exact hc he.2.2.2.1
    unfold stripLeadingFence
    rw [if_neg hcond]
    rw [if_pos (aux_isPrefixOf_append_self fencePlain (x :: xs))]
    rw [show (3 : Nat) = fencePlain.length from rfl, List.drop_left]

theorem aux_fencePlain_reverse : fencePlain.reverse = fencePlain := by decide

theorem aux_stripTrailingFence_fence (pre w : List Char)
    (hw : ∀ c ∈ w, pyIsSpace c = true) (b : Char)
    (hb : pre.getLast? = some b) (hpb : pyIsSpace b = false) :
    stripTrailingFence (pre ++ (w ++ fencePlain)) = pre := by
  have hrev : (pre ++ (w ++ fencePlain)).reverse = fencePlain ++ (w.reverse ++ pre.reverse) := by
    simp [List.reverse_append, aux_fencePlain_reverse, List.append_assoc]
  unfold stripTrailingFence
  rw [hrev]
  rw [if_pos (aux_isPrefixOf_append_self fencePlain (w.reverse ++ pre.reverse))]
  rw [show (3 : Nat) = fencePlain.length from rfl, List.drop_left]
  rw [aux_dropWhile_append_all pyIsSpace w.reverse pre.reverse
    (fun c hc => hw c (List.mem_reverse.mp hc))]
  rw [aux_dropWhile_head_false pyIsSpace pre.reverse b (by rw [List.head?_reverse]; exact hb) hpb]
  exact List.reverse_reverse pre

theorem aux_stripLeadingFence_id_brace (l : List Char) (h : l.head? = some '{') :
    stripLeadingFence l = l := by
  cases l with
  | nil => simp at h
  | cons x xs =>
    have hx : x = '{' := by simpa using h
    subst hx
    have hcond : ¬((('{' :: xs).take 7).map Char.toLower = fenceJson) := by
      intro he
      rw [aux_fenceJson_cons] at he
      simp only [List.take_succ_cons, List.map_cons, List.cons.injEq] at he
      exact absurd he.1 (by decide)
    have hbeq : ((Char.ofNat 96 : Char) == '{') = false := by decide
    have hpre : fencePlain.isPrefixOf ('{' :: xs) = false := by
      rw [aux_fencePlain_cons]
      simp [List.isPrefixOf, hbeq]
    unfold stripLeadingFence
    rw [if_neg hcond, if_neg (by simp [hpre])]

theorem aux_stripTrailingFence_id (l : List Char) (h : l.getLast? = some '}') :
    stripTrailingFence l = l := by
  have hrev : l.reverse.head? = some '}' := by rw [List.head?_reverse]; exact h
  have hbeq : ((Char.ofNat 96 : Char) == '}') = false := by decide
  have hpre : fencePlain.isPrefixOf l.reverse = false := by
    cases hr : l.reverse with
    | nil => rw [hr] at hrev; simp at hrev
    | cons x xs =>
      rw [hr] at hrev
      have hx : x = '}' := by simpa using hrev
      subst hx
      rw [aux_fencePlain_cons]
      simp [List.isPrefixOf, hbeq]
  unfold stripTrailingFence
  rw [if_neg (by simp [hpre])]

theorem aux_extractBraced_self (x : List Char) (h1 : x.head? = some '{')
    (h2 : x.getLast? = some '}') : extractBraced x = some x := by
  have hd : x.dropWhile (fun c => c != '{') = x :=
    aux_dropWhile_head_false _ x '{' h1 (by decide)
  have hrevhead : x.reverse.head? = some '}' := by rw [List.head?_reverse]; exact h2
  have hd2 : x.reverse.dropWhile (fun c => c != '}') = x.reverse :=
    aux_dropWhile_head_false _ x.reverse '}' hrevhead (by decide)
  unfold extractBraced
  simp only [hd, hd2, List.reverse_reverse]
  cases x with
  | nil => simp at h1
  | cons a as => rfl

theorem aux_cleanupText_plain (w1 w4 x : List Char)
    (hw1 : ∀ c ∈ w1, pyIsSpace c = true) (hw4 : ∀ c ∈ w4, pyIsSpace c = true)
    (h1 : x.head? = some '{') (h2 : x.getLast? = some '}') :
    cleanupText (w1 ++ (x ++ w4)) = x := by
  unfold cleanupText
  rw [aux_pyStrip_sandwich w1 w4 x hw1 hw4 '{' '}' h1 (by decide) h2 (by decide)]
  rw [aux_stripLeadingFence_id_brace x h1]
  exact aux_stripTrailingFence_id x h2

theorem aux_cleanupText_id (x : List Char)
    (h1 : x.head? = some '{') (h2 : x.getLast? = some '}') :
    cleanupText x = x := by
  have h := aux_cleanupText_plain [] [] x (by simp) (by simp) h1 h2
  simpa using h

theorem aux_cleanupText_fenced (tag : Bool) (w1 w2 w3 w4 x : List Char)
    (hw1 : ∀ c ∈ w1, pyIsSpace c = true) (hw2 : ∀ c ∈ w2, pyIsSpace c = true)
    (hw3 : ∀ c ∈ w3, pyIsSpace c = true) (hw4 : ∀ c ∈ w4, pyIsSpace c = true)
    (h1 : x.head? = some '{') (h2 : x.getLast? = some '}') :
    cleanupText
      (w1 ++ (((if tag then fenceJson else fencePlain) ++ (w2 ++ (x ++ (w3 ++ fencePlain)))) ++ w4))
      = x := by
  have hxws : pyIsSpace '{' = false := by decide
  have hbws : pyIsSpace (Char.ofNat 96) = false := by decide
  have hinnerLast : ∀ fo : List Char,
      ((fo ++ (w2 ++ (x ++ (w3 ++ fencePlain)))).getLast? = some (Char.ofNat 96)) := by
    intro fo
    rw [← List.head?_reverse]
    simp only [List.reverse_append]
    rw [aux_fencePlain_reverse, aux_fencePlain_cons]
    simp [List.append_assoc]
  have hdropmid :
      (w2 ++ (x ++ (w3 ++ fencePlain))).dropWhile pyIsSpace = x ++ (w3 ++ fencePlain) := by
    rw [aux_dropWhile_append_all pyIsSpace w2 _ hw2]
    exact aux_dropWhile_head_false pyIsSpace _ '{'
      (aux_head?_append_left x _ '{' h1) hxws
  cases tag with
  | true =>
    have hhead : (fenceJson ++ (w2 ++ (x ++ (w3 ++ fencePlain)))).head? = some (Char.ofNat 96) := by
      apply aux_head?_append_left
      rw [aux_fenceJson_cons]
      rfl
    unfold cleanupText
    rw [if_pos rfl]
    rw [aux_pyStrip_sandwich w1 w4 _ hw1 hw4 (Char.ofNat 96) (Char.ofNat 96) hhead hbws
      (hinnerLast fenceJson) hbws]
    rw [aux_stripLeadingFence_json, hdropmid]
    exact aux_stripTrailingFence_fence x w3 hw3 '}' h2 (by decide)
  | false =>
    have hhead : (fencePlain ++ (w2 ++ (x ++ (w3 ++ fencePlain)))).head? = some (Char.ofNat 96) := by
      apply aux_head?_append_left
      rw [aux_fencePlain_cons]
      rfl
    have hrestHead : ∃ c, (w2 ++ (x ++ (w3 ++ fencePlain))).head? = some c ∧ Char.toLower c ≠ 'j' := by
      cases w2 with
      | nil =>
        refine ⟨'{', ?_, by decide⟩
        rw [List.nil_append]
        exact aux_head?_append_left x _ '{' h1
      | cons d ds =>
        refine ⟨d, rfl, aux_toLower_ws_ne_j d (hw2 d (List.mem_cons_self d ds))⟩
    obtain ⟨c, hch, hcj⟩ := hrestHead
    unfold cleanupText
    rw [if_neg (by simp)]
    rw [aux_pyStrip_sandwich w1 w4 _ hw1 hw4 (Char.ofNat 96) (Char.ofNat 96) hhead hbws
      (hinnerLast fencePlain) hbws]
    rw [aux_stripLeadingFence_plain _ c hch hcj, hdropmid]
    exact aux_stripTrailingFence_fence x w3 hw3 '}' h2 (by decide)

theorem aux_parse_of_cleanup (loads : List Char → Option PyJson) (raw x : List Char)
    (j : PyJson) (hc : cleanupText raw = x)
    (h1 : x.head? = some '{') (h2 : x.getLast? = some '}')
    (hv : loads x = some j) : parseCritique loads raw = j := by
  have he : extractBraced (cleanupText raw) = some x := by
    rw [hc]
    exact aux_extractBraced_self x h1 h2
  simp [parseCritique, he, hv]

/-- C8: for every decoder behavior and every syntactically valid braced
payload `x` (accepted by the strict decoder), parsing `x` alone, parsing
`x` surrounded by arbitrary leading/trailing whitespace, and parsing `x`
wrapped in a code fence (with or without the `json` tag, with arbitrary
whitespace around the payload and around the fences) all yield exactly the
same structured result — the decoder's value for `x`. -/
theorem C8_parse_noise_invariant (loads : List Char → Option PyJson) (j : PyJson)
    (x w1 w2 w3 w4 : List Char) (tag : Bool)
    (hw1 : ∀ c ∈ w1, pyIsSpace c = true) (hw2 : ∀ c ∈ w2, pyIsSpace c = true)
    (hw3 : ∀ c ∈ w3, pyIsSpace c = true) (hw4 : ∀ c ∈ w4, pyIsSpace c = true)
    (h1 : x.head? = some '{') (h2 : x.getLast? = some '}')
    (hv : loads x = some j) :
    parseCritique loads x = j
    ∧ parseCritique loads (w1 ++ (x ++ w4)) = j
    ∧ parseCritique loads
        (w1 ++ (((if tag then fenceJson else fencePlain) ++
          (w2 ++ (x ++ (w3 ++ fencePlain)))) ++ w4)) = j := by
  refine ⟨?_, ?_, ?_⟩
  · exact aux_parse_of_cleanup loads x x j (aux_cleanupText_id x h1 h2) h1 h2 hv
  · exact aux_parse_of_cleanup loads _ x j
      (aux_cleanupText_plain w1 w4 x hw1 hw4 h1 h2) h1 h2 hv
  · exact aux_parse_of_cleanup loads _ x j
      (aux_cleanupText_fenced tag w1 w2 w3 w4 x hw1 hw2 hw3 hw4 h1 h2) h1 h2 hv

/-- C8 witness: the claim theorem applied to a concrete decoder and
payload, wrapped in a tagged code fence with newlines and spaces. -/
theorem C8_witness :
    parseCritique loadsC8 xC8 = jC8
    ∧ parseCritique loadsC8
        (" ".data ++ ((fenceJson ++ ("\n".data ++ (xC8 ++ ("\n".data ++ fencePlain)))) ++ " ".data))
        = jC8 := by
  have h := C8_parse_noise_invariant loadsC8 jC8 xC8 " ".data "\n".data "\n".data " ".data true
    (by decide) (by decide) (by decide) (by decide) (by decide) (by decide) rfl
  exact ⟨h.1, by simpa using h.2.2⟩

theorem aux_lookup_setWS (ws : WS) (k : String) (v : String) (k2 : String) :
    lookupWS (setWS ws k v) k2 = if k2 = k then some v else lookupWS ws k2 := by
  induction ws with
  | nil =>
    by_cases h : k2 = k
    · subst h
      simp [setWS, lookupWS, List.find?]
    · have hb : (k == k2) = false := by
        simp [beq_iff_eq]
        exact fun he => h he.symm
      simp [setWS, lookupWS, List.find?, hb, h]
  | cons p rest ih =>
    obtain ⟨k1, v1⟩ := p
    by_cases h1 : k1 = k
    · subst h1
      by_cases h2 : k2 = k1
      · subst h2
        simp [setWS, lookupWS, List.find?]
      · have hb : (k1 == k2) = false := by
          simp [beq_iff_eq]
          exact fun he => h2 he.symm
        simp [setWS, lookupWS, List.find?, hb, h2]
    · have hne : (k1 = k) = False := by simp [h1]
      by_cases h2 : k2 = k1
      · subst h2
        have hb : (k2 == k2) = true := by simp
        simp [setWS, lookupWS, List.find?, h1, hb]
      · have hb : (k1 == k2) = false := by
          simp [beq_iff_eq]
          exact fun he => h2 he.symm
        simp only [setWS, if_neg h1]
        simp only [lookupWS, List.find?, hb]
        have := ih
        simp only [lookupWS] at this
        exact this

theorem aux_applyEdits_not_mem (o : SubjectOracle) (r : Nat) :
    ∀ (jobs : List String) (ws ws2 : WS) (k : String),
    applyEdits o r jobs ws = .ok ws2 → k ∉ jobs → lookupWS ws2 k = lookupWS ws k := by
  intro jobs
  induction jobs with
  | nil =>
    intro ws ws2 k h _
    simp [applyEdits] at h
    rw [h]
  | cons name rest ih =>
    intro ws ws2 k h hk
    have hkn : k ≠ name := fun he => hk (he ▸ List.mem_cons_self name rest)
    have hkr : k ∉ rest := fun hh => hk (List.mem_cons_of_mem name hh)
    cases he : o.edit r name with
    | error e => rw [applyEdits, he] at h; cases h
    | ok txt =>
      rw [applyEdits, he] at h
      have := ih (setWS ws name txt) ws2 k h hkr
      rw [this, aux_lookup_setWS ws name txt k, if_neg hkn]

theorem aux_applyEdits_isSome (o : SubjectOracle) (r : Nat) :
    ∀ (jobs : List String) (ws ws2 : WS) (k : String),
    applyEdits o r jobs ws = .ok ws2 →
    (lookupWS ws k).isSome = true → (lookupWS ws2 k).isSome = true := by
  intro jobs
  induction jobs with
  | nil =>
    intro ws ws2 k h hs
    simp [applyEdits] at h
    rw [← h]
    exact hs
  | cons name rest ih =>
    intro ws ws2 k h hs
    cases he : o.edit r name with
    | error e => rw [applyEdits, he] at h; cases h
    | ok txt =>
      rw [applyEdits, he] at h
      apply ih (setWS ws name txt) ws2 k h
      rw [aux_lookup_setWS ws name txt k]
      by_cases hk : k = name
      · simp [hk]
      · rw [if_neg hk]
        exact hs

theorem aux_mem_editJobs (ws : WS) (cf : List (String × PyJson)) (name : String) :
    name ∈ editJobs ws cf ↔
      ∃ payload, (name, payload) ∈ cf ∧ truthyDraft (lookupWS ws name) = true
        ∧ isListPayload payload = true := by
  constructor
  · intro h
    obtain ⟨p, hp, hf⟩ := List.mem_filterMap.mp h
    by_cases hc : (truthyDraft (lookupWS ws p.1) && isListPayload p.2) = true
    · rw [if_pos hc] at hf
      have hp1 : p.1 = name := by simpa using hf
      have hc2 : truthyDraft (lookupWS ws p.1) = true ∧ isListPayload p.2 = true := by
        simpa using hc
      obtain ⟨ht, hl⟩ := hc2
      refine ⟨p.2, ?_, ?_, hl⟩
      · rw [← hp1]
        exact hp
      · rw [← hp1]
        exact ht
    · rw [if_neg hc] at hf
      cases hf
  · rintro ⟨payload, hp, ht, hl⟩
    apply List.mem_filterMap.mpr
    refine ⟨(name, payload), hp, ?_⟩
    rw [if_pos]
    simp [ht, hl]

theorem aux_nodup_key_unique (l : List (String × PyJson)) (k : String) (v1 v2 : PyJson)
    (hnd : (l.map Prod.fst).Nodup) (h1 : (k, v1) ∈ l) (h2 : (k, v2) ∈ l) : v1 = v2 := by
  induction l with
  | nil => cases h1
  | cons a rest ih =>
    rw [List.map_cons, List.nodup_cons] at hnd
    cases h1 with
    | head =>
      cases h2 with
      | head => rfl
      | tail _ h2t =>
        exact absurd (List.mem_map_of_mem Prod.fst h2t) (by simpa using hnd.1)
    | tail _ h1t =>
      cases h2 with
      | head =>
        exact absurd (List.mem_map_of_mem Prod.fst h1t) (by simpa using hnd.1)
      | tail _ h2t => exact ih hnd.2 h1t h2t

/-- C6: in a revision round whose critique feedback is the dict `cf`, any
topic appearing in `cf` that is absent from the Working Set or whose
correction payload is not a list is skipped: its Working Set entry is left
exactly unchanged; any topic whose entry changes must have a list-shaped
payload in `cf`; and no Working Set entry is ever deleted by the round. -/
theorem C6_revision_skip_no_delete (o : SubjectOracle) (r : Nat) (ws : WS)
    (cf : List (String × PyJson)) (ws2 : WS)
    (hc : o.critique r = .ok cf)
    (hnd : (cf.map Prod.fst).Nodup)
    (hrun : runRound o r ws = .ok ws2) :
    (∀ name payload, (name, payload) ∈ cf →
       (lookupWS ws name = none ∨ isListPayload payload = false) →
       lookupWS ws2 name = lookupWS ws name)
    ∧ (∀ name, lookupWS ws2 name ≠ lookupWS ws name →
        ∃ payload, (name, payload) ∈ cf ∧ isListPayload payload = true)
    ∧ (∀ name, (lookupWS ws name).isSome = true → (lookupWS ws2 name).isSome = true) := by
  rw [runRound, hc] at hrun
  refine ⟨?_, ?_, ?_⟩
  · intro name payload hmem hbad
    have hnot : name ∉ editJobs ws cf := by
      intro hin
      obtain ⟨p2, hp2, ht, hl⟩ := (aux_mem_editJobs ws cf name).mp hin
      have hpp : p2 = payload := aux_nodup_key_unique cf name p2 payload hnd hp2 hmem
      subst hpp
      cases hbad with
      | inl hnone => rw [hnone] at ht; cases ht
      | inr hnl => rw [hnl] at hl; cases hl
    exact aux_applyEdits_not_mem o r (editJobs ws cf) ws ws2 name hrun hnot
  · intro name hne
    by_cases hin : name ∈ editJobs ws cf
    · obtain ⟨payload, hp, _, hl⟩ := (aux_mem_editJobs ws cf name).mp hin
      exact ⟨payload, hp, hl⟩
    · exact absurd (aux_applyEdits_not_mem o r (editJobs ws cf) ws ws2 name hrun hin) hne
  · intro name hs
    exact aux_applyEdits_isSome o r (editJobs ws cf) ws ws2 name hrun hs

/-- C6 witness: the claim theorem applied to a concrete round in which the
`History` entry has a non-list payload (skipped, kept unchanged) while
`Customers` is revised. -/
theorem C6_witness : lookupWS wsC6out "History" = lookupWS wsC6 "History" := by
  have h := (C6_revision_skip_no_delete oC6 0 wsC6 cfC6 wsC6out rfl (by decide) rfl).1
  exact h "History" (.str "notalist") (by simp [cfC6]) (Or.inr rfl)

theorem aux_draftsGo_ok (draft : Topic → Except String String)
    (hd : ∀ t, ∃ s, draft t = .ok s) :
    ∀ (l : List Topic) (ws : WS), ∃ ws2, draftsGo draft l ws = .ok ws2 := by
  intro l
  induction l with
  | nil => intro ws; exact ⟨ws, rfl⟩
  | cons t rest ih =>
    intro ws
    obtain ⟨s, hs⟩ := hd t
    obtain ⟨ws2, hws2⟩ := ih (setWS ws t.label s)
    exact ⟨ws2, by rw [draftsGo, hs]; exact hws2⟩

theorem aux_draftsGo_err (draft : Topic → Except String String) :
    ∀ (l : List Topic) (ws : WS), (∃ t ∈ l, ∃ e, draft t = .error e) →
    ∃ e2, draftsGo draft l ws = .error e2 := by
  intro l
  induction l with
  | nil =>
    intro ws h
    obtain ⟨t, ht, _⟩ := h
    cases ht
  | cons t rest ih =>
    intro ws h
    cases hdt : draft t with
    | error e => exact ⟨e, by rw [draftsGo, hdt]⟩
    | ok s =>
      obtain ⟨t0, ht0, e0, he0⟩ := h
      have ht0r : t0 ∈ rest := by
        cases ht0 with
        | head => rw [hdt] at he0; cases he0
        | tail _ hh => exact hh
      obtain ⟨e2, he2⟩ := ih (setWS ws t.label s) ⟨t0, ht0r, e0, he0⟩
      exact ⟨e2, by rw [draftsGo, hdt]; exact he2⟩

theorem aux_topic_mem_collectOrder (t : Topic) : t ∈ collectOrder := by
  have ht : t ∈ topics := by cases t <;> simp [topics]
  exact ((List.perm_insertionSort _ topics).mem_iff).mpr ht

theorem aux_applyEdits_ok (o : SubjectOracle) (r : Nat)
    (he : ∀ n, ∃ s, o.edit r n = .ok s) :
    ∀ (jobs : List String) (ws : WS), ∃ ws2, applyEdits o r jobs ws = .ok ws2 := by
  intro jobs
  induction jobs with
  | nil => intro ws; exact ⟨ws, rfl⟩
  | cons name rest ih =>
    intro ws
    obtain ⟨s, hs⟩ := he name
    obtain ⟨ws2, hws2⟩ := ih (setWS ws name s)
    exact ⟨ws2, by rw [applyEdits, hs]; exact hws2⟩

theorem aux_cyclesGo_ok (o : SubjectOracle)
    (hc : ∀ r, ∃ cf, o.critique r = .ok cf)
    (he : ∀ r n, ∃ s, o.edit r n = .ok s) :
    ∀ (n count : Nat) (ws : WS), ∃ ws2, cyclesGo o n count ws = (.ok ws2, n) := by
  intro n
  induction n with
  | zero => intro count ws; exact ⟨ws, rfl⟩
  | succ n ih =>
    intro count ws
    obtain ⟨cf, hcf⟩ := hc count
    obtain ⟨ws2, hws2⟩ := aux_applyEdits_ok o count (he count) (editJobs ws cf) ws
    have hround : runRound o count ws = .ok ws2 := by
      rw [runRound, hcf]
      exact hws2
    obtain ⟨ws3, hws3⟩ := ih (count + 1) ws2
    refine ⟨ws3, ?_⟩
    simp only [cyclesGo, hround, hws3]

/-- C3: with the cycle bound fixed at 3, every run whose draft, critique
and edit calls all return (whatever the critique's content — non-empty
corrections every time or no corrections at all) performs exactly 3
critique→revise rounds and then stops, with no run-level error. -/
theorem C3_exactly_three_cycles (o : SubjectOracle)
    (hd : ∀ t, ∃ s, o.draft t = .ok s)
    (hc : ∀ r, ∃ cf, o.critique r = .ok cf)
    (he : ∀ r n, ∃ s, o.edit r n = .ok s) :
    (runSubject o).critiqueCalls = 3 ∧ (runSubject o).error = none := by
  obtain ⟨ws0, hws0⟩ := aux_draftsGo_ok o.draft hd collectOrder []
  have hdr : runDrafts o.draft = .ok ws0 := hws0
  obtain ⟨wsF, hwsF⟩ := aux_cyclesGo_ok o hc he amount_of_cycles 0 ws0
  simp only [runSubject, hdr, hwsF]
  constructor <;> trivial

/-- C3 witness: the claim theorem applied to an oracle whose critique
always returns non-empty corrections and to one whose critique always
reports no corrections: both run exactly 3 rounds. -/
theorem C3_witness :
    (runSubject oAlways).critiqueCalls = 3 ∧ (runSubject oEmptyCrit).critiqueCalls = 3 := by
  constructor
  · exact (C3_exactly_three_cycles oAlways (fun t => ⟨"draft text", rfl⟩)
      (fun r => ⟨_, rfl⟩) (fun r n => ⟨"revised", rfl⟩)).1
  · exact (C3_exactly_three_cycles oEmptyCrit (fun t => ⟨"draft text", rfl⟩)
      (fun r => ⟨[], rfl⟩) (fun r n => ⟨"revised", rfl⟩)).1

/-- C5 counterexample: an oracle in which exactly one draft task (History)
raises while all the others complete.  The whole subject run aborts: no
critique round runs, nothing is printed (no report), and the error is what
the run-level handler reports — so the completed topics do *not* proceed
through critique and are *not* printed. -/
theorem C5_counterexample :
    runSubject oDraftBoom = ⟨none, some "boom", 0, none⟩
    ∧ (runSubject oDraftBoom).report = none
    ∧ (runSubject oDraftBoom).critiqueCalls = 0 := by
  refine ⟨rfl, rfl, rfl⟩

/-- C5 (amended): a single failed Draft Task aborts the current subject's
run at the result-collection barrier: the exception propagates, no
critique call is made, no report is printed for that subject, and the
run-level handler reports the error, after which the REPL continues with
the next subject. -/
theorem C5_draft_failure_aborts_run (o : SubjectOracle)
    (h : ∃ t e, o.draft t = .error e) :
    (runSubject o).report = none ∧ (runSubject o).critiqueCalls = 0
    ∧ (runSubject o).error.isSome = true
    ∧ ∀ (oracles : String → SubjectOracle) (inp : String) (more : List String),
        oracles inp = o → (strLower inp == "exit" || strLower inp == "quit") = false →
        analyze_company oracles (inp :: more)
          = .errorLine ((runSubject o).error.getD "") :: analyze_company oracles more := by
  obtain ⟨t, e, he⟩ := h
  obtain ⟨e2, he2⟩ := aux_draftsGo_err o.draft collectOrder []
    ⟨t, aux_topic_mem_collectOrder t, e, he⟩
  have hdr : runDrafts o.draft = .error e2 := he2
  have hrs : runSubject o = ⟨none, some e2, 0, none⟩ := by
    simp only [runSubject, hdr]
  refine ⟨by rw [hrs], by rw [hrs], by rw [hrs]; rfl, ?_⟩
  intro oracles inp more ho hexit
  simp only [analyze_company, if_neg (by simp [hexit] : ¬((strLower inp == "exit" || strLower inp == "quit") = true)), ho, hrs]
  rfl

/-- C5 witness: the amended theorem applied to the oracle whose History
draft raises. -/
theorem C5_witness :
    (runSubject oDraftBoom).report = none ∧ (runSubject oDraftBoom).critiqueCalls = 0
    ∧ (runSubject oDraftBoom).error.isSome = true := by
  have h := C5_draft_failure_aborts_run oDraftBoom ⟨.HISTORY, "boom", rfl⟩
  exact ⟨h.1, h.2.1, h.2.2.1⟩

/-- C7: a backend error that is not a quota-exhaustion signal is re-raised
by the Model Gateway immediately — no retry, no sleep, regardless of what
the backend would have answered next — and a subject run whose caught
exception reaches the top-level REPL loop produces an error report after
which the loop continues with the remaining inputs. -/
theorem C7_nonquota_failfast :
    (∀ (msg : String) (rest : List GwStep), isQuotaError msg = false →
      generate_response (GwStep.err msg :: rest) = some (.raised msg []))
    ∧ (∀ (oracles : String → SubjectOracle) (inp : String) (more : List String) (e : String),
        (strLower inp == "exit" || strLower inp == "quit") = false →
        (runSubject (oracles inp)).error = some e →
        analyze_company oracles (inp :: more)
          = .errorLine e :: analyze_company oracles more) := by
  constructor
  · intro msg rest h
    rw [generate_response, if_neg (by simp [h])]
  · intro oracles inp more e hexit herr
    simp only [analyze_company,
      if_neg (by simp [hexit] : ¬((strLower inp == "exit" || strLower inp == "quit") = true)),
      herr]

/-- C7 witness: the claim theorem applied to a non-quota error message and
to a one-subject REPL run whose oracle raises. -/
theorem C7_witness :
    generate_response [GwStep.err "boom"] = some (.raised "boom" [])
    ∧ analyze_company (fun _ => oNetDown) ["Acme"] = [.errorLine "network down"] := by
  constructor
  · exact C7_nonquota_failfast.1 "boom" [] (by decide)
  · have h := C7_nonquota_failfast.2 (fun _ => oNetDown) "Acme" [] "network down"
      (by decide) rfl
    rw [h]
    rfl

/-- C9: whenever a subject run completes, the printed report has one slot
per topic, iterated in the fixed `Topic` enumeration order — History first
through Investment Risks last — independent of the order in which draft or
revision tasks completed; and a topic missing from the final Working Set
contributes a fallback slot in its position rather than being reordered or
omitted. -/
theorem C9_report_enumeration_order (o : SubjectOracle)
    (rep : List (String × Option String)) (ws : WS)
    (h : runSubject o = ⟨some rep, none, 3, some ws⟩) :
    rep.map Prod.fst = ["History", "Products, Industry & Market Size", "Revenue Breakdown",
      "Customers", "Competitive Landscape", "Financial Performance", "Stock Drivers",
      "Investment Risks"]
    ∧ rep = topics.map (fun t => (t.label, reportSlot ws t))
    ∧ ∀ t ∈ topics, lookupWS ws t.label = none → (t.label, none) ∈ rep := by
  have hrep : rep = printSlots ws := by
    cases hdr : runDrafts o.draft with
    | error e => rw [runSubject, hdr] at h; cases h
    | ok ws0 =>
      cases hcg : cyclesGo o amount_of_cycles 0 ws0 with
      | mk res c =>
        cases res with
        | error e =>
          rw [runSubject] at h
          simp only [hdr, hcg] at h
          cases h
        | ok wsF =>
          rw [runSubject] at h
          simp only [hdr, hcg] at h
          have h1 : printSlots wsF = rep := by
            have := congrArg RunResult.report h
            simpa using this
          have h2 : wsF = ws := by
            have := congrArg RunResult.finalWS h
            simpa using this
          rw [← h1, h2]
  refine ⟨?_, ?_, ?_⟩
  · rw [hrep]
    rfl
  · rw [hrep]
    rfl
  · intro t ht hnone
    rw [hrep, printSlots]
    have hslot : reportSlot ws t = none := by
      rw [reportSlot, hnone]
    have : (t.label, reportSlot ws t) ∈ topics.map (fun t => (t.label, reportSlot ws t)) :=
      List.mem_map_of_mem _ ht
    rw [hslot] at this
    exact this

/-- C9 witness: the claim theorem applied to a completed run of
`oEmptyCrit`; the report slots come out in enumeration order. -/
theorem C9_witness :
    rep9.map Prod.fst = ["History", "Products, Industry & Market Size", "Revenue Breakdown",
      "Customers", "Competitive Landscape", "Financial Performance", "Stock Drivers",
      "Investment Risks"] :=
  (C9_report_enumeration_order oEmptyCrit rep9 ws9 rfl).1
